import Mathlib

/-!
Verification of the gzip response-compression handler (gziphandler).

This file gives a shallow embedding of the handler's adaptive response
writer, its decision gate, its capability forwarder and its compressor
pool, translated from `gzip.go` (the later revision, the one defining
`shouldPassThrough`, `handleContentType`, `regularFlushedWrite`,
`releaseBuffer` and the functional options `CompressionLevel`, `MinSize`,
`ContentTypes`).

External collaborators of the library (the `compress/gzip` codec, the
`http.DetectContentType` sniffer, the `httputils.MIMETypeMatches`
predicate, and the already-parsed output of `header.ParseAccept`) are not
code of this repository; they enter as parameters of the model (`Collab`,
`AcceptSpec`) or, for the gzip codec, as a model codec satisfying the
round-trip contract the layer relies on.
-/

namespace GzipHandler

/-- Model of the response header map restricted to the keys the handler
logic reads or writes: `Content-Encoding`, `Content-Length`,
`Content-Type` and `Vary`.  `none` models an absent key of Go's
`http.Header`; a present key maps to its list of values. -/
structure Hdr where
  ce : Option (List String)
  cl : Option (List String)
  ct : Option (List String)
  vary : List String
deriving Repr, DecidableEq

/-- Go's `http.Header.Get`: the first value of the key, or `""` when the
key is absent or has no values. -/
def getFirst : Option (List String) → String
  | some (v :: _) => v
  | _ => ""

/-- The underlying `http.ResponseWriter` sink.  `hdr` is the live header
map (shared with the wrapper through `Header()`), `code` the status of
the first effective `WriteHeader` (later calls are ignored, as in
`net/http`), `sentHdr` the snapshot of the header map at the moment the
status line was committed, `body` the raw bytes written to the transport,
and `isFlusher` whether the sink implements `http.Flusher`. -/
structure Sink where
  hdr : Hdr
  code : Option Nat
  sentHdr : Option Hdr
  body : List Nat
  flushCount : Nat
  isFlusher : Bool
deriving Repr, DecidableEq

def Sink.writeHeader (s : Sink) (c : Nat) : Sink :=
  if s.code.isSome then s else { s with code := some c, sentHdr := some s.hdr }

/-- Underlying `Write`: commits the status line at 200 if not yet
committed (as `net/http` does), then appends the bytes. -/
def Sink.write (s : Sink) (b : List Nat) : Sink :=
  let s := if s.code.isSome then s else { s with code := some 200, sentHdr := some s.hdr }
  { s with body := s.body ++ b }

/-- Underlying `Flush` of an `http.Flusher` sink: commits the status line
if needed and records the flush. -/
def Sink.flush (s : Sink) : Sink :=
  let s := if s.code.isSome then s else { s with code := some 200, sentHdr := some s.hdr }
  { s with flushCount := s.flushCount + 1 }

/-- Model of a pooled `gzip.Writer` bound to the sink by `Reset`:
`id` identifies the pooled instance, `input` is the uncompressed byte
stream written into it since `Reset`, `flushCount` counts `Flush` calls. -/
structure GW where
  id : Nat
  input : List Nat
  flushCount : Nat
deriving Repr, DecidableEq

def GW.write (g : GW) (b : List Nat) : GW := { g with input := g.input ++ b }

/-- Model of the external `compress/gzip` encoding: an injective framing
(magic bytes in front).  The layer relies only on the round-trip
contract `gzipDecompress (gzipCompress l) = some l`. -/
def gzipCompress (l : List Nat) : List Nat := 31 :: 139 :: l

/-- Model of gzip decompression, the inverse of `gzipCompress`. -/
def gzipDecompress : List Nat → Option (List Nat)
  | 31 :: 139 :: rest => some rest
  | _ => none

/-- The handler's `sync.Pool` of gzip writers for its compression level:
`free` is the stack of released instance ids, `next` the next fresh id
(`New` constructs a fresh instance when the pool is empty). -/
structure Pool where
  free : List Nat
  next : Nat
deriving Repr, DecidableEq

def Pool.get (p : Pool) : Nat × Pool :=
  match p.free with
  | [] => (p.next, { p with next := p.next + 1 })
  | i :: rest => (i, { p with free := rest })

def Pool.put (p : Pool) (i : Nat) : Pool := { p with free := i :: p.free }

/-- The handler configuration built by the `MinSize` and `ContentTypes`
options (the compression level only selects the pool and never changes
the control flow modeled here). -/
structure Cfg where
  minSize : Nat
  contentTypes : List String

/-- The external collaborators consumed as pure functions:
`sniff` is `http.DetectContentType`, `mimeMatches` is
`httputils.MIMETypeMatches`. -/
structure Collab where
  sniff : List Nat → String
  mimeMatches : String → List String → Bool

/-- One element of `header.ParseAccept`'s output for `Accept-Encoding`:
a token value and its quality weight. -/
structure AcceptSpec where
  value : String
  q : Rat

/-- The full per-request state: the underlying sink, the `responseWriter`
fields `gw` (active compressor), `code` (saved status, 0 = unset) and
`buf` (pending lookahead buffer, `none` once released), plus the
handler's compressor pool. -/
structure St where
  sink : Sink
  gw : Option GW
  code : Nat
  buf : Option (List Nat)
  pool : Pool
deriving Repr, DecidableEq

/-- The byte list `inferContentType` hands to the sniffer, computed from
the pending buffer and the current chunk exactly as the source does
(`sniffLen = 512`). -/
def sniffInput (buf b : List Nat) : List Nat :=
  if buf = [] then b
  else if 512 ≤ buf.length then buf
  else if 512 < buf.length + b.length then buf ++ b.take (512 - buf.length)
  else buf ++ b

/-- `responseWriter.inferContentType`: when `Content-Type` is not already
present, sniff it from the buffered bytes plus the current chunk; an
empty input leaves the header unset. -/
def inferContentType (col : Collab) (st : St) (b : List Nat) : St :=
  if (st.sink.hdr.ct).isSome then st
  else
    let si := sniffInput (st.buf.getD []) b
    if si = [] then st
    else { st with sink.hdr.ct := some [col.sniff si] }

/-- `responseWriter.handleContentType`: an empty allow-list accepts every
content type; an unset `Content-Type` header is accepted (the sniffer has
not run yet); a present but empty value list is rejected; otherwise the
first value is matched against the allow-list. -/
def handleContentType (cfg : Cfg) (col : Collab) (st : St) : Bool :=
  if cfg.contentTypes = [] then true
  else
    match st.sink.hdr.ct with
    | none => true
    | some [] => false
    | some (c0 :: _) => col.mimeMatches c0 cfg.contentTypes

/-- `responseWriter.shouldPassThrough`: pass through when the handler
already set a `Content-Encoding`, or when the content type is not
allowed. -/
def shouldPassThrough (cfg : Cfg) (col : Collab) (st : St) : Bool :=
  if getFirst st.sink.hdr.ce ≠ "" then true else !(handleContentType cfg col st)

/-- `responseWriter.startGzip`: set `Content-Encoding: gzip`, delete any
`Content-Length`, commit the status line, borrow a compressor from the
pool bound to the sink, write the buffered prefix into it and release
the buffer. -/
def startGzip (st : St) : St :=
  let sink := { st.sink with hdr := { st.sink.hdr with ce := some ["gzip"], cl := none } }
  let sink := sink.writeHeader st.code
  let gp := st.pool.get
  let buf := st.buf.getD []
  let g : GW := { id := gp.1, input := [], flushCount := 0 }
  let g := if buf ≠ [] then g.write buf else g
  { st with sink := sink, gw := some g, buf := none, pool := gp.2 }

/-- `responseWriter.regularFlushedWrite`: commit the status line, flush
the buffered prefix to the sink uncompressed, release the buffer and
forward the chunk. -/
def regularFlushedWrite (st : St) (b : List Nat) : St :=
  let sink := st.sink.writeHeader st.code
  let buf := st.buf.getD []
  let sink := if buf ≠ [] then sink.write buf else sink
  { st with sink := sink.write b, buf := none }

/-- `responseWriter.Write`. -/
def write (cfg : Cfg) (col : Collab) (st : St) (b : List Nat) : St :=
  match st.gw with
  | some g => { st with gw := some (g.write b) }
  | none =>
    match st.buf with
    | none => { st with sink := st.sink.write b }
    | some buf =>
      let st := if st.code = 0 then { st with code := 200 } else st
      if shouldPassThrough cfg col st then regularFlushedWrite st b
      else if buf.length + b.length < cfg.minSize then
        { st with buf := some (buf ++ b) }
      else
        let st := inferContentType col st b
        if shouldPassThrough cfg col st then regularFlushedWrite st b
        else
          let st := startGzip st
          { st with gw := st.gw.map (fun (g : GW) => g.write b) }

/-- `responseWriter.WriteHeader`: the first recorded code wins. -/
def writeHeaderRW (st : St) (c : Nat) : St :=
  if st.code = 0 then { st with code := c } else st

/-- `responseWriter.closeGzipped`: close the compressor (which emits the
compressed stream into the sink) and return it to the pool. -/
def closeGzipped (st : St) : St :=
  match st.gw with
  | none => st
  | some g =>
      { st with sink := st.sink.write (gzipCompress g.input),
                pool := st.pool.put g.id, gw := none }

/-- `responseWriter.closeNonGzipped`: infer the content type from the
whole buffer, commit the status line, write the buffer verbatim and
release it. -/
def closeNonGzipped (col : Collab) (st : St) : St :=
  let st := inferContentType col st []
  let st := if st.code = 0 then { st with code := 200 } else st
  let sink := st.sink.writeHeader st.code
  let buf := st.buf.getD []
  let sink := if buf ≠ [] then sink.write buf else sink
  { st with sink := sink, buf := none }

/-- `responseWriter.Close`.  The source panics when both `buf` and `gw`
are non-nil; that state is unreachable (`stInv_run` below), and the model
leaves it unchanged. -/
def closeRW (col : Collab) (st : St) : St :=
  match st.buf, st.gw with
  | some _, some _ => st
  | some _, none => closeNonGzipped col st
  | none, some _ => closeGzipped st
  | none, none => st

/-- `responseWriter.Flush`: a no-op until `startGzip` has run or the
writer is in pass-through mode; otherwise flush the compressor when
present and then the sink when it is a flusher. -/
def flushRW (st : St) : St :=
  if st.gw.isNone && st.buf.isSome then st
  else
    let st := { st with gw := st.gw.map (fun (g : GW) => { g with flushCount := g.flushCount + 1 }) }
    if st.sink.isFlusher then { st with sink := st.sink.flush } else st

/-- One observable interaction of the wrapped handler with the writer:
writes, status, flush, an explicit `Close`, or a mutation of one of the
modeled header keys through `Header()`. -/
inductive Op where
  | write (b : List Nat)
  | writeHeader (c : Nat)
  | flush
  | close
  | setCE (vs : List String)
  | setCT (vs : List String)
  | setCL (vs : List String)

/-- Dispatch of one handler interaction against the wrapping
`responseWriter`. -/
def step (cfg : Cfg) (col : Collab) (st : St) : Op → St
  | .write b => write cfg col st b
  | .writeHeader c => writeHeaderRW st c
  | .flush => flushRW st
  | .close => closeRW col st
  | .setCE vs => { st with sink.hdr.ce := some vs }
  | .setCT vs => { st with sink.hdr.ct := some vs }
  | .setCL vs => { st with sink.hdr.cl := some vs }

/-- A handler body run against the wrapping writer. -/
def run (cfg : Cfg) (col : Collab) (st : St) (ops : List Op) : St :=
  ops.foldl (step cfg col) st

/-- Dispatch of one handler interaction against the bare sink (the
ineligible-request fast path, where the writer is not wrapped; `Close`
and a failed `Flusher` assertion do nothing there). -/
def stepDirect (s : Sink) : Op → Sink
  | .write b => s.write b
  | .writeHeader c => s.writeHeader c
  | .flush => if s.isFlusher then s.flush else s
  | .close => s
  | .setCE vs => { s with hdr.ce := some vs }
  | .setCT vs => { s with hdr.ct := some vs }
  | .setCL vs => { s with hdr.cl := some vs }

/-- The decision gate's negotiation loop over the parsed
`Accept-Encoding` specs: accept on the first spec whose value is exactly
`"gzip"` with positive quality. -/
def acceptsGzip : List AcceptSpec → Bool
  | [] => false
  | s :: rest => if s.value = "gzip" ∧ 0 < s.q then true else acceptsGzip rest

/-- `hdr["Vary"] = append(hdr["Vary"], "Accept-Encoding")`. -/
def addVary (s : Sink) : Sink := { s with hdr.vary := s.hdr.vary ++ ["Accept-Encoding"] }

/-- The fresh per-request writer built in `handler.ServeHTTP`: a zeroed
`responseWriter` holding an empty buffer from the buffer pool. -/
def mkState (sink : Sink) (pool : Pool) : St :=
  { sink := sink, gw := none, code := 0, buf := some [], pool := pool }

/-- `handler.ServeHTTP`: append to `Vary`, negotiate, and either run the
handler unwrapped, or run it against the writer with a deferred
`Close`. -/
def serveHTTP (cfg : Cfg) (col : Collab) (specs : List AcceptSpec) (ops : List Op)
    (sink : Sink) (pool : Pool) : Sink × Pool :=
  let sink := addVary sink
  if acceptsGzip specs then
    let st := closeRW col (run cfg col (mkState sink pool) ops)
    (st.sink, st.pool)
  else
    (ops.foldl stepDirect sink, pool)

/-- A fresh response: no headers set apart from a pre-existing `Vary`
value list, status line not committed, empty body. -/
def freshSink (fl : Bool) (vary : List String) : Sink :=
  { hdr := { ce := none, cl := none, ct := none, vary := vary },
    code := none, sentHdr := none, body := [], flushCount := 0, isFlusher := fl }

/-- The three optional transport capabilities a sink may expose. -/
structure Caps where
  closeNotify : Bool
  hijack : Bool
  push : Bool
deriving Repr, DecidableEq

/-- The fixed wrapper shapes of the capability forwarder. -/
inductive WrapperKind where
  | plain
  | closeNotify
  | hijack
  | pusher
  | closeNotifyHijack
  | closeNotifyPusher
deriving Repr, DecidableEq

/-- The wrapper-selection switch of `handler.ServeHTTP`, in source
order. -/
def selectWrapper (cok hok pok : Bool) : WrapperKind :=
  if cok && hok then .closeNotifyHijack
  else if cok && pok then .closeNotifyPusher
  else if cok then .closeNotify
  else if hok then .hijack
  else if pok then .pusher
  else .plain

/-- The capabilities each wrapper shape implements, read off the
interface assertions and method sets in the source. -/
def kindCaps : WrapperKind → Caps
  | .plain => ⟨false, false, false⟩
  | .closeNotify => ⟨true, false, false⟩
  | .hijack => ⟨false, true, false⟩
  | .pusher => ⟨false, false, true⟩
  | .closeNotifyHijack => ⟨true, true, false⟩
  | .closeNotifyPusher => ⟨true, false, true⟩

/-- ASCII lowering, used only to state the case-insensitivity the spec
claims for the negotiation. -/
def asciiLower (s : String) : String := String.mk (s.data.map Char.toLower)

/-- The cumulative number of body bytes written up to and including the
write that commits the writer (the total when the body never reaches the
threshold and the commitment happens at finalize). -/
def commitLen (m : Nat) : List (List Nat) → Nat → Nat
  | [], acc => acc
  | b :: rest, acc =>
      if acc + b.length < m then commitLen m rest (acc + b.length)
      else acc + b.length

/-- The `Content-Type` header value `inferContentType` produces from a
buffer and a chunk (absent when the sniffer input is empty). -/
def ctSniff (col : Collab) (buf b : List Nat) : Option (List String) :=
  if sniffInput buf b = [] then none else some [col.sniff (sniffInput buf b)]

/-- The `Content-Type` value inferred at the moment a run of writes
commits, starting from buffered bytes `buf`. -/
def commitCT (col : Collab) (m : Nat) : List Nat → List (List Nat) → Option (List String)
  | _, [] => none
  | buf, b :: rest =>
      if buf.length + b.length < m then commitCT col m (buf ++ b) rest
      else ctSniff col buf b

/-- The status code the committing write records: 200 when the handler
never called `WriteHeader`, the saved code otherwise. -/
def dCode (c : Nat) : Nat := if c = 0 then 200 else c

/-- Soundness of the pool: released ids are pairwise distinct and below
the fresh-id counter. -/
def PoolInv (p : Pool) : Prop := p.free.Nodup ∧ ∀ i ∈ p.free, i < p.next

/-- Soundness of a writer state: the pool is sound and the borrowed
compressor, if any, is not simultaneously free in the pool. -/
def StInv (st : St) : Prop :=
  PoolInv st.pool ∧ ∀ g, st.gw = some g → g.id < st.pool.next ∧ g.id ∉ st.pool.free

/-! ## Basic lemmas -/

theorem gzip_roundtrip (l : List Nat) : gzipDecompress (gzipCompress l) = some l := rfl

theorem acceptsGzip_eq_true_iff (specs : List AcceptSpec) :
    acceptsGzip specs = true ↔ ∃ s ∈ specs, s.value = "gzip" ∧ 0 < s.q := by
  induction specs with
  | nil => simp [acceptsGzip]
  | cons s rest ih =>
      by_cases h : s.value = "gzip" ∧ 0 < s.q
      · simp [acceptsGzip, h]
      · simp only [acceptsGzip, if_neg h, ih, List.mem_cons]
        constructor
        · rintro ⟨t, ht, hp⟩; exact ⟨t, Or.inr ht, hp⟩
        · rintro ⟨t, ht, hp⟩
          rcases ht with rfl | ht
          · exact absurd hp h
          · exact ⟨t, ht, hp⟩

/-! ## C4: the decision gate -/

/-- C4 counterexample: the claim says the gate accepts whenever some
token equals "gzip" case-insensitively with positive quality; the token
"GZIP" with quality 1 satisfies that, yet the gate rejects it (the
source compares `spec.Value == "gzip"` case-sensitively). -/
theorem accept_gate_cex :
    acceptsGzip [⟨"GZIP", 1⟩] = false ∧
    asciiLower "GZIP" = "gzip" ∧ (0 : Rat) < 1 := by
  refine ⟨by decide, by decide, by decide⟩

/-- C4 (amended): the gate accepts iff some parsed token equals "gzip"
exactly (case-sensitively) with strictly positive quality — so an absent
header (no specs) or gzip only with quality 0 is not accepted — and
whenever the gate rejects, the handler runs directly against the
original sink (only `Vary` gains "Accept-Encoding"). -/
theorem accept_gate_spec (cfg : Cfg) (col : Collab) (specs : List AcceptSpec)
    (ops : List Op) (sink : Sink) (pool : Pool) :
    (acceptsGzip specs = true ↔ ∃ s ∈ specs, s.value = "gzip" ∧ 0 < s.q) ∧
    (acceptsGzip specs = false →
      serveHTTP cfg col specs ops sink pool = (ops.foldl stepDirect (addVary sink), pool)) := by
  refine ⟨acceptsGzip_eq_true_iff specs, fun h => ?_⟩
  simp [serveHTTP, h]

/-- C4 witness: a request without an `Accept-Encoding` header runs the
handler unwrapped against the sink. -/
theorem accept_gate_spec_witness :
    acceptsGzip [] = false ∧
    serveHTTP ⟨512, []⟩ ⟨fun _ => "x", fun _ _ => true⟩ [] [Op.write [104]]
        (freshSink false []) ⟨[], 0⟩
      = ([Op.write [104]].foldl stepDirect (addVary (freshSink false [])), ⟨[], 0⟩) :=
  ⟨by decide,
    (accept_gate_spec ⟨512, []⟩ ⟨fun _ => "x", fun _ _ => true⟩ [] [Op.write [104]]
      (freshSink false []) ⟨[], 0⟩).2 (by decide)⟩

/-! ## C5: header mutations at the commit to compression -/

/-- C5: when the writer commits to compression, `startGzip` sets
`Content-Encoding` to exactly "gzip" and deletes any previously set
`Content-Length`, and both mutations are already in the header snapshot
taken when the status line is written to the sink; in particular the
snapshot never carries the handler-supplied `Content-Length`. -/
theorem startGzip_header_contract (st : St) (h : st.sink.code = none) :
    (startGzip st).sink.sentHdr = some (startGzip st).sink.hdr ∧
    (startGzip st).sink.hdr.ce = some ["gzip"] ∧
    (startGzip st).sink.hdr.cl = none ∧
    (startGzip st).sink.code = some st.code := by
  simp [startGzip, Sink.writeHeader, h]

/-- A concrete pre-commit state with a handler-set `Content-Length` of
"600", used as the input of the C5 witness. -/
def preCommitState : St :=
  { sink := { hdr := { ce := none, cl := some ["600"], ct := none, vary := [] },
              code := none, sentHdr := none, body := [], flushCount := 0,
              isFlusher := false },
    gw := none, code := 200, buf := some [], pool := ⟨[], 0⟩ }

/-- C5 witness: the concrete state with a handler-set `Content-Length`
of "600" commits with `Content-Encoding: gzip` and no
`Content-Length`. -/
theorem startGzip_header_contract_witness :
    (startGzip preCommitState).sink.sentHdr = some (startGzip preCommitState).sink.hdr ∧
    (startGzip preCommitState).sink.hdr.ce = some ["gzip"] ∧
    (startGzip preCommitState).sink.hdr.cl = none ∧
    (startGzip preCommitState).sink.code = some 200 :=
  startGzip_header_contract preCommitState rfl

/-! ## C7: the capability forwarder -/

/-- C7 counterexample: for a sink implementing Hijacker and Pusher but
not CloseNotifier, the selected wrapper exposes only Hijacker — not the
same subset, contradicting the claim for this capability subset. -/
theorem capability_forwarder_cex :
    kindCaps (selectWrapper false true true) ≠ Caps.mk false true true := by decide

/-- C7 (amended): the wrapper preserves close-notification and hijacking
exactly, and preserves push exactly unless the sink also hijacks: for
the two subsets containing both Hijacker and Pusher, the Pusher
capability is dropped; for the other six subsets the wrapper implements
exactly the sink's subset. -/
theorem capability_forwarder_spec :
    ∀ c h p : Bool, kindCaps (selectWrapper c h p) = Caps.mk c h (p && !h) := by decide

/-! ## C8: Flush in the three writer modes -/

/-- C8: while the writer is still buffering, `Flush` changes nothing (no
bytes, no status commit); once compressing, it flushes the compressor
and then the sink exactly when the sink supports flushing; in
pass-through it flushes only the sink.  In no mode does it write body
bytes. -/
theorem flush_mode_contract (st : St) :
    (st.gw = none → st.buf.isSome → flushRW st = st) ∧
    (∀ g, st.gw = some g →
      (flushRW st).gw = some { g with flushCount := g.flushCount + 1 } ∧
      (flushRW st).sink.body = st.sink.body ∧
      (flushRW st).sink.flushCount = st.sink.flushCount + (if st.sink.isFlusher then 1 else 0) ∧
      (flushRW st).buf = st.buf) ∧
    (st.gw = none → st.buf = none →
      (flushRW st).gw = none ∧
      (flushRW st).sink.body = st.sink.body ∧
      (flushRW st).sink.flushCount = st.sink.flushCount + (if st.sink.isFlusher then 1 else 0)) := by
  refine ⟨fun hg hb => ?_, fun g hg => ?_, fun hg hb => ?_⟩
  · simp [flushRW, hg, hb]
  · by_cases hf : st.sink.isFlusher
    · simp [flushRW, hg, hf, Sink.flush]
      cases hc : st.sink.code <;> simp [hc]
    · simp [flushRW, hg, hf, Sink.flush]
  · by_cases hf : st.sink.isFlusher
    · simp [flushRW, hg, hb, hf, Sink.flush]
      cases hc : st.sink.code <;> simp [hc]
    · simp [flushRW, hg, hb, hf, Sink.flush]

/-- C8 witness: flushing a buffering writer is a no-op. -/
theorem flush_mode_contract_witness :
    flushRW (mkState (freshSink true []) ⟨[], 0⟩) = mkState (freshSink true []) ⟨[], 0⟩ :=
  (flush_mode_contract (mkState (freshSink true []) ⟨[], 0⟩)).1 rfl rfl

/-! ## Run-phase lemmas -/

@[simp] theorem getFirst_none : getFirst none = "" := rfl

@[simp] theorem getFirst_some_nil : getFirst (some []) = "" := rfl

@[simp] theorem getFirst_some_cons (v : String) (vs : List String) :
    getFirst (some (v :: vs)) = v := rfl

theorem run_nil (cfg : Cfg) (col : Collab) (st : St) : run cfg col st [] = st := rfl

theorem run_cons (cfg : Cfg) (col : Collab) (st : St) (op : Op) (ops : List Op) :
    run cfg col st (op :: ops) = run cfg col (step cfg col st op) ops := rfl

theorem step_write (cfg : Cfg) (col : Collab) (st : St) (b : List Nat) :
    step cfg col st (Op.write b) = write cfg col st b := rfl

theorem dCode_idem (c : Nat) : dCode (dCode c) = dCode c := by
  unfold dCode; split <;> simp

theorem dCode_ne_zero (c : Nat) : dCode c ≠ 0 := by
  unfold dCode; split <;> simp_all

theorem sniffInput_nil_right (buf : List Nat) : sniffInput buf [] = buf := by
  unfold sniffInput
  split_ifs with h1 h2 h3 <;> simp_all

/-- With no `Content-Encoding` and no `Content-Type` set, the writer
never passes through. -/
theorem shouldPassThrough_clean (cfg : Cfg) (col : Collab) {st : St}
    (hce : st.sink.hdr.ce = none) (hct : st.sink.hdr.ct = none) :
    shouldPassThrough cfg col st = false := by
  simp [shouldPassThrough, hce, handleContentType, hct]

/-- Setting the saved code on an unset writer is `dCode`. -/
theorem code_default (st : St) :
    (if st.code = 0 then { st with code := 200 } else st) = { st with code := dCode st.code } := by
  unfold dCode
  split <;> simp_all

/-- A single write while the compressor is active. -/
theorem write_gw (cfg : Cfg) (col : Collab) (sink : Sink) (g : GW) (code : Nat)
    (buf : Option (List Nat)) (pool : Pool) (b : List Nat) :
    write cfg col ⟨sink, some g, code, buf, pool⟩ b =
      ⟨sink, some (g.write b), code, buf, pool⟩ := rfl

/-- A single write in pass-through mode with a committed status line. -/
theorem write_passthrough (cfg : Cfg) (col : Collab) (sink : Sink) (code : Nat)
    (pool : Pool) (b : List Nat) (hc : sink.code.isSome = true) :
    write cfg col ⟨sink, none, code, none, pool⟩ b =
      ⟨{ sink with body := sink.body ++ b }, none, code, none, pool⟩ := by
  obtain ⟨hdr, scode, sentHdr, body, fc, fl⟩ := sink
  simp [write, Sink.write, hc]

/-- A single write that stays below the threshold, with no content
headers set. -/
theorem write_buffer (cfg : Cfg) (col : Collab) (sink : Sink) (code : Nat)
    (buf b : List Nat) (pool : Pool)
    (hce : sink.hdr.ce = none) (hct : sink.hdr.ct = none)
    (hlt : buf.length + b.length < cfg.minSize) :
    write cfg col ⟨sink, none, code, some buf, pool⟩ b =
      ⟨sink, none, dCode code, some (buf ++ b), pool⟩ := by
  have h200 : shouldPassThrough cfg col ⟨sink, none, 200, some buf, pool⟩ = false :=
    shouldPassThrough_clean cfg col hce hct
  have hsame : shouldPassThrough cfg col ⟨sink, none, code, some buf, pool⟩ = false :=
    shouldPassThrough_clean cfg col hce hct
  by_cases hc0 : code = 0
  · subst hc0
    simp [write, h200, hlt, dCode, Nat.not_lt.mpr]
  · simp [write, hc0, hsame, hlt, dCode]

/-- Once the compressor is active, a run of writes only extends the
compressor's input. -/
theorem run_gw (cfg : Cfg) (col : Collab) :
    ∀ (chunks : List (List Nat)) (sink : Sink) (g : GW) (code : Nat)
      (buf : Option (List Nat)) (pool : Pool),
      run cfg col ⟨sink, some g, code, buf, pool⟩ (chunks.map Op.write) =
        ⟨sink, some { g with input := g.input ++ chunks.flatten }, code, buf, pool⟩ := by
  intro chunks
  induction chunks with
  | nil => intro sink g code buf pool; simp [run_nil]
  | cons b rest ih =>
      intro sink g code buf pool
      rw [List.map_cons, run_cons]
      show run cfg col (write cfg col ⟨sink, some g, code, buf, pool⟩ b) (rest.map Op.write) = _
      rw [write_gw, ih]
      simp [GW.write, List.append_assoc]

/-- In pass-through mode with the status line already committed, a run
of writes only appends the raw bytes to the sink. -/
theorem run_passthrough (cfg : Cfg) (col : Collab) :
    ∀ (chunks : List (List Nat)) (sink : Sink) (code : Nat) (pool : Pool),
      sink.code.isSome = true →
      run cfg col ⟨sink, none, code, none, pool⟩ (chunks.map Op.write) =
        ⟨{ sink with body := sink.body ++ chunks.flatten }, none, code, none, pool⟩ := by
  intro chunks
  induction chunks with
  | nil =>
      intro sink code pool hc
      obtain ⟨hdr, scode, sentHdr, body, fc, fl⟩ := sink
      simp [run_nil]
  | cons b rest ih =>
      intro sink code pool hc
      rw [List.map_cons, run_cons]
      show run cfg col (write cfg col ⟨sink, none, code, none, pool⟩ b) (rest.map Op.write) = _
      rw [write_passthrough cfg col sink code pool b hc,
        ih { sink with body := sink.body ++ b } code pool (by simpa using hc)]
      obtain ⟨hdr, scode, sentHdr, body, fc, fl⟩ := sink
      simp [List.append_assoc]

/-- While the cumulative length stays below the threshold and the
handler set no content headers, a run of writes only grows the pending
buffer (and defaults the saved code on the first write). -/
theorem run_buffering (cfg : Cfg) (col : Collab) :
    ∀ (chunks : List (List Nat)) (sink : Sink) (code : Nat) (buf : List Nat) (pool : Pool),
      sink.hdr.ce = none → sink.hdr.ct = none →
      buf.length + chunks.flatten.length < cfg.minSize →
      run cfg col ⟨sink, none, code, some buf, pool⟩ (chunks.map Op.write) =
        ⟨sink, none, if chunks.isEmpty then code else dCode code,
          some (buf ++ chunks.flatten), pool⟩ := by
  intro chunks
  induction chunks with
  | nil => intro sink code buf pool hce hct hlen; simp [run_nil]
  | cons b rest ih =>
      intro sink code buf pool hce hct hlen
      rw [List.map_cons, run_cons]
      have hlt : buf.length + b.length < cfg.minSize := by
        simp only [List.flatten_cons, List.length_append] at hlen ⊢
        omega
      show run cfg col (write cfg col ⟨sink, none, code, some buf, pool⟩ b) (rest.map Op.write) = _
      rw [write_buffer cfg col sink code buf b pool hce hct hlt,
        ih sink (dCode code) (buf ++ b) pool hce hct
          (by simp only [List.flatten_cons, List.length_append] at hlen ⊢; omega)]
      simp [List.append_assoc, dCode_idem]

/-! ## The commit to compression -/

theorem shouldPassThrough_of_ct (cfg : Cfg) (col : Collab) {st : St}
    (hce : st.sink.hdr.ce = none) (hok : handleContentType cfg col st = true) :
    shouldPassThrough cfg col st = false := by
  simp [shouldPassThrough, hce, hok]

/-- The commit write, split by the post-inference pass-through check:
either way the inferred content type is in place before the status line
commits. -/
theorem write_commit_split (cfg : Cfg) (col : Collab) (cl : Option (List String))
    (vary : List String) (sh : Option Hdr) (body : List Nat) (fc : Nat) (fl : Bool)
    (code : Nat) (buf b : List Nat) (pool : Pool)
    (hmin : ¬ buf.length + b.length < cfg.minSize) :
    write cfg col ⟨⟨⟨none, cl, none, vary⟩, none, sh, body, fc, fl⟩, none, code, some buf, pool⟩ b =
      if shouldPassThrough cfg col
          ⟨⟨⟨none, cl, ctSniff col buf b, vary⟩, none, sh, body, fc, fl⟩,
            none, dCode code, some buf, pool⟩
      then regularFlushedWrite
          ⟨⟨⟨none, cl, ctSniff col buf b, vary⟩, none, sh, body, fc, fl⟩,
            none, dCode code, some buf, pool⟩ b
      else ⟨⟨⟨some ["gzip"], none, ctSniff col buf b, vary⟩, some (dCode code),
              some ⟨some ["gzip"], none, ctSniff col buf b, vary⟩, body, fc, fl⟩,
            some ⟨(pool.get).1, buf ++ b, 0⟩, dCode code, none, (pool.get).2⟩ := by
  have hspt1 : ∀ (X : Nat) (bf : List Nat), shouldPassThrough cfg col
      ⟨⟨⟨none, cl, none, vary⟩, none, sh, body, fc, fl⟩, none, X, some bf, pool⟩ = false :=
    fun X bf => shouldPassThrough_clean cfg col rfl rfl
  by_cases hsi : sniffInput buf b = [] <;> by_cases hbuf0 : buf = [] <;> by_cases hc0 : code = 0 <;>
    (try simp only [hbuf0, List.length_nil, Nat.zero_add] at hsi hmin) <;>
    simp [write, hc0, hsi, hbuf0, hspt1, hmin, dCode, ctSniff, inferContentType,
      startGzip, Sink.writeHeader, GW.write]

/-- `handleContentType` accepts a state whose `Content-Type` is the one
inferred at a commit, when the configuration allows that inferred type
(an empty allow-list allows everything; an unset header is accepted). -/
theorem handleContentType_of_ctSniff (cfg : Cfg) (col : Collab) {st : St}
    (buf b : List Nat)
    (hct : st.sink.hdr.ct = ctSniff col buf b)
    (hallow : ∀ s, ctSniff col buf b = some [s] →
      cfg.contentTypes = [] ∨ col.mimeMatches s cfg.contentTypes = true) :
    handleContentType cfg col st = true := by
  unfold handleContentType
  by_cases he : cfg.contentTypes = []
  · simp [he]
  · rw [if_neg he, hct]
    by_cases hsi : sniffInput buf b = []
    · simp [ctSniff, hsi]
    · have hv : ctSniff col buf b = some [col.sniff (sniffInput buf b)] := by
        simp [ctSniff, hsi]
      rw [hv]
      rcases hallow _ hv with he2 | hm
      · exact absurd he2 he
      · exact hm

/-- The write that crosses the threshold from a clean buffering state,
when the configuration allows the content type inferred at this commit
(the single `MIMETypeMatches` evaluation the source performs): the gzip
headers are set, the status line is committed with its snapshot, a
compressor is borrowed, and the buffered prefix plus the chunk feed
it. -/
theorem write_commit_gzip (cfg : Cfg) (col : Collab) (cl : Option (List String))
    (vary : List String) (sh : Option Hdr) (body : List Nat) (fc : Nat) (fl : Bool)
    (code : Nat) (buf b : List Nat) (pool : Pool)
    (hmin : ¬ buf.length + b.length < cfg.minSize)
    (hallow : ∀ s, ctSniff col buf b = some [s] →
      cfg.contentTypes = [] ∨ col.mimeMatches s cfg.contentTypes = true) :
    write cfg col ⟨⟨⟨none, cl, none, vary⟩, none, sh, body, fc, fl⟩, none, code, some buf, pool⟩ b =
      ⟨⟨⟨some ["gzip"], none, ctSniff col buf b, vary⟩, some (dCode code),
          some ⟨some ["gzip"], none, ctSniff col buf b, vary⟩, body, fc, fl⟩,
        some ⟨(pool.get).1, buf ++ b, 0⟩, dCode code, none, (pool.get).2⟩ := by
  rw [write_commit_split cfg col cl vary sh body fc fl code buf b pool hmin]
  have hf : shouldPassThrough cfg col
      ⟨⟨⟨none, cl, ctSniff col buf b, vary⟩, none, sh, body, fc, fl⟩,
        none, dCode code, some buf, pool⟩ = false :=
    shouldPassThrough_of_ct cfg col rfl
      (handleContentType_of_ctSniff cfg col buf b rfl hallow)
  simp [hf]

/-- A nonempty run of writes reaching the threshold from a clean
buffering state commits to compression whenever the configuration
allows the content type inferred at the commit point: gzip headers set
and snapshotted, all bytes fed to the borrowed compressor, nothing
written raw. -/
theorem run_commit_gzip (cfg : Cfg) (col : Collab) :
    ∀ (chunks : List (List Nat)) (cl : Option (List String)) (vary : List String)
      (sh : Option Hdr) (body : List Nat) (fc : Nat) (fl : Bool)
      (code : Nat) (buf : List Nat) (pool : Pool),
      chunks ≠ [] → cfg.minSize ≤ buf.length + chunks.flatten.length →
      (∀ s, commitCT col cfg.minSize buf chunks = some [s] →
        cfg.contentTypes = [] ∨ col.mimeMatches s cfg.contentTypes = true) →
      run cfg col ⟨⟨⟨none, cl, none, vary⟩, none, sh, body, fc, fl⟩, none, code, some buf, pool⟩
          (chunks.map Op.write) =
        ⟨⟨⟨some ["gzip"], none, commitCT col cfg.minSize buf chunks, vary⟩, some (dCode code),
            some ⟨some ["gzip"], none, commitCT col cfg.minSize buf chunks, vary⟩, body, fc, fl⟩,
          some ⟨(pool.get).1, buf ++ chunks.flatten, 0⟩, dCode code, none, (pool.get).2⟩ := by
  intro chunks
  induction chunks with
  | nil => intro _ _ _ _ _ _ _ _ _ hne _ _; exact absurd rfl hne
  | cons b rest ih =>
      intro cl vary sh body fc fl code buf pool _ hmin hallow
      rw [List.map_cons, run_cons]
      by_cases hlt : buf.length + b.length < cfg.minSize
      · have hrest : rest ≠ [] := by
          rintro rfl
          simp only [List.flatten_cons, List.flatten_nil, List.append_nil,
            List.length_append] at hmin
          omega
        have hstep : commitCT col cfg.minSize buf (b :: rest)
            = commitCT col cfg.minSize (buf ++ b) rest := by
          simp [commitCT, hlt]
        show run cfg col
            (write cfg col
              ⟨⟨⟨none, cl, none, vary⟩, none, sh, body, fc, fl⟩, none, code, some buf, pool⟩ b)
            (rest.map Op.write) = _
        rw [write_buffer cfg col _ code buf b pool rfl rfl hlt,
          ih cl vary sh body fc fl (dCode code) (buf ++ b) pool hrest
            (by simp only [List.flatten_cons, List.length_append] at hmin ⊢; omega)
            (fun s hs => hallow s (by rw [hstep]; exact hs))]
        simp [List.append_assoc, dCode_idem, commitCT, hlt]
      · have hstep : commitCT col cfg.minSize buf (b :: rest) = ctSniff col buf b := by
          simp [commitCT, hlt]
        show run cfg col
            (write cfg col
              ⟨⟨⟨none, cl, none, vary⟩, none, sh, body, fc, fl⟩, none, code, some buf, pool⟩ b)
            (rest.map Op.write) = _
        rw [write_commit_gzip cfg col cl vary sh body fc fl code buf b pool hlt
            (fun s hs => hallow s (by rw [hstep]; exact hs)),
          run_gw]
        simp [List.append_assoc, commitCT, hlt]

/-- Finalizing a compressing writer: the compressor closes into the
sink and is returned to the pool. -/
theorem closeRW_gzip (col : Collab) (sink : Sink) (g : GW) (code : Nat) (pool : Pool)
    (hc : sink.code.isSome = true) :
    closeRW col ⟨sink, some g, code, none, pool⟩ =
      ⟨{ sink with body := sink.body ++ gzipCompress g.input }, none, code, none, pool.put g.id⟩ := by
  obtain ⟨hdr, scode, sentHdr, body, fc, fl⟩ := sink
  simp [closeRW, closeGzipped, Sink.write, hc]

/-- Finalizing a pass-through writer does nothing. -/
theorem closeRW_passthrough (col : Collab) (sink : Sink) (code : Nat) (pool : Pool) :
    closeRW col ⟨sink, none, code, none, pool⟩ = ⟨sink, none, code, none, pool⟩ := rfl

/-- Finalizing a still-buffering writer with no content headers set:
the content type is sniffed from the whole buffer, the status line is
committed with its snapshot, and the buffer is written verbatim. -/
theorem closeRW_buffering (col : Collab) (cl : Option (List String)) (vary : List String)
    (sh : Option Hdr) (body : List Nat) (fc : Nat) (fl : Bool)
    (code : Nat) (bf : List Nat) (pool : Pool) :
    closeRW col ⟨⟨⟨none, cl, none, vary⟩, none, sh, body, fc, fl⟩, none, code, some bf, pool⟩ =
      ⟨⟨⟨none, cl, ctSniff col bf [], vary⟩, some (dCode code),
          some ⟨none, cl, ctSniff col bf [], vary⟩, body ++ bf, fc, fl⟩,
        none, dCode code, none, pool⟩ := by
  by_cases hbf : bf = [] <;> by_cases hc0 : code = 0 <;>
    simp [closeRW, closeNonGzipped, inferContentType, sniffInput_nil_right, hbf, hc0,
      dCode, Sink.writeHeader, Sink.write, ctSniff]

/-! ## C1: compressed round-trip for large allowed bodies -/

/-- C1: when the client accepts gzip, the handler only writes (no
`Content-Encoding` of its own), the cumulative body length reaches the
configured minimum size and the configuration allows the content type
— the allow-list is empty, or it matches the type the sniffer infers at
the moment of commitment (`commitCT`), which is the one evaluation of
the allow-list the source performs — the response carries
`Content-Encoding: gzip` (also in the committed header snapshot) and
gzip-decompressing the response body yields exactly the concatenation
of the written chunks. -/
theorem gzip_roundtrip_large_body (cfg : Cfg) (col : Collab) (specs : List AcceptSpec)
    (chunks : List (List Nat)) (fl : Bool) (v : List String) (pool : Pool)
    (hacc : acceptsGzip specs = true)
    (hne : chunks ≠ [])
    (hmin : cfg.minSize ≤ chunks.flatten.length)
    (hallow : ∀ s, commitCT col cfg.minSize [] chunks = some [s] →
      cfg.contentTypes = [] ∨ col.mimeMatches s cfg.contentTypes = true) :
    gzipDecompress (serveHTTP cfg col specs (chunks.map Op.write) (freshSink fl v) pool).1.body
        = some chunks.flatten ∧
    (serveHTTP cfg col specs (chunks.map Op.write) (freshSink fl v) pool).1.hdr.ce
        = some ["gzip"] ∧
    ∃ hh, (serveHTTP cfg col specs (chunks.map Op.write) (freshSink fl v) pool).1.sentHdr
        = some hh ∧ hh.ce = some ["gzip"] := by
  have hrun := run_commit_gzip cfg col chunks none (v ++ ["Accept-Encoding"]) none []
    0 fl 0 [] pool hne (by simpa using hmin) hallow
  simp only [serveHTTP, hacc, if_true, addVary, mkState, freshSink]
  rw [hrun]
  simp [closeRW, closeGzipped, Sink.write, gzipCompress, gzipDecompress]

/-- C1 witness: one chunk of one byte with threshold 1 and the
nontrivial allow-list ["text/plain"], which the sniffed type matches,
round-trips through the compressor. -/
theorem gzip_roundtrip_large_body_witness :
    gzipDecompress (serveHTTP ⟨1, ["text/plain"]⟩
        ⟨fun _ => "text/plain", fun t ts => ts.contains t⟩ [⟨"gzip", 1⟩]
        ([[104]].map Op.write) (freshSink false []) ⟨[], 0⟩).1.body = some [104] ∧
    (serveHTTP ⟨1, ["text/plain"]⟩
        ⟨fun _ => "text/plain", fun t ts => ts.contains t⟩ [⟨"gzip", 1⟩]
        ([[104]].map Op.write) (freshSink false []) ⟨[], 0⟩).1.hdr.ce = some ["gzip"] ∧
    ∃ hh, (serveHTTP ⟨1, ["text/plain"]⟩
        ⟨fun _ => "text/plain", fun t ts => ts.contains t⟩ [⟨"gzip", 1⟩]
        ([[104]].map Op.write) (freshSink false []) ⟨[], 0⟩).1.sentHdr = some hh ∧
      hh.ce = some ["gzip"] :=
  gzip_roundtrip_large_body ⟨1, ["text/plain"]⟩
    ⟨fun _ => "text/plain", fun t ts => ts.contains t⟩ [⟨"gzip", 1⟩]
    [[104]] false [] ⟨[], 0⟩ (by decide) (by decide) (by decide)
    (fun s hs => Or.inr (by
      have h2 : (some ["text/plain"] : Option (List String)) = some [s] := hs
      simp at h2
      subst h2
      decide))

/-! ## C2: small bodies pass through byte-identically -/

/-- C2: when the client accepts gzip and the handler only writes a body
whose total length stays strictly below the threshold, the bytes
delivered to the sink are byte-identical to the handler's bytes, no
`Content-Encoding` header is present (live or in the snapshot), and no
compressor is ever borrowed. -/
theorem small_body_identity (cfg : Cfg) (col : Collab) (specs : List AcceptSpec)
    (chunks : List (List Nat)) (fl : Bool) (v : List String) (pool : Pool)
    (hacc : acceptsGzip specs = true)
    (hlen : chunks.flatten.length < cfg.minSize) :
    (serveHTTP cfg col specs (chunks.map Op.write) (freshSink fl v) pool).1.body
        = chunks.flatten ∧
    (serveHTTP cfg col specs (chunks.map Op.write) (freshSink fl v) pool).1.hdr.ce = none ∧
    (∀ hh, (serveHTTP cfg col specs (chunks.map Op.write) (freshSink fl v) pool).1.sentHdr
        = some hh → hh.ce = none) ∧
    (serveHTTP cfg col specs (chunks.map Op.write) (freshSink fl v) pool).2 = pool := by
  have hrun := run_buffering cfg col chunks
    ⟨⟨none, none, none, v ++ ["Accept-Encoding"]⟩, none, none, [], 0, fl⟩ 0 [] pool
    rfl rfl (by simpa using hlen)
  simp only [serveHTTP, hacc, if_true, addVary, mkState, freshSink]
  rw [hrun, closeRW_buffering]
  simp

/-- C2 witness: Scenario A — "hello" (5 bytes) against threshold 512
passes through unchanged with no `Content-Encoding`. -/
theorem small_body_identity_witness :
    (serveHTTP ⟨512, []⟩ ⟨fun _ => "text/plain", fun _ _ => true⟩ [⟨"gzip", 1⟩]
        ([[104, 101, 108, 108, 111]].map Op.write) (freshSink false []) ⟨[], 0⟩).1.body
      = [104, 101, 108, 108, 111] ∧
    (serveHTTP ⟨512, []⟩ ⟨fun _ => "text/plain", fun _ _ => true⟩ [⟨"gzip", 1⟩]
        ([[104, 101, 108, 108, 111]].map Op.write) (freshSink false []) ⟨[], 0⟩).1.hdr.ce
      = none ∧
    (∀ hh, (serveHTTP ⟨512, []⟩ ⟨fun _ => "text/plain", fun _ _ => true⟩ [⟨"gzip", 1⟩]
        ([[104, 101, 108, 108, 111]].map Op.write) (freshSink false []) ⟨[], 0⟩).1.sentHdr
      = some hh → hh.ce = none) ∧
    (serveHTTP ⟨512, []⟩ ⟨fun _ => "text/plain", fun _ _ => true⟩ [⟨"gzip", 1⟩]
        ([[104, 101, 108, 108, 111]].map Op.write) (freshSink false []) ⟨[], 0⟩).2 = ⟨[], 0⟩ :=
  small_body_identity ⟨512, []⟩ ⟨fun _ => "text/plain", fun _ _ => true⟩ [⟨"gzip", 1⟩]
    [[104, 101, 108, 108, 111]] false [] ⟨[], 0⟩ (by decide) (by decide)

/-! ## C3: pre-set Content-Encoding forces pass-through -/

theorem shouldPassThrough_of_ce (cfg : Cfg) (col : Collab) {st : St}
    (h : getFirst st.sink.hdr.ce ≠ "") : shouldPassThrough cfg col st = true := by
  simp [shouldPassThrough, h]

/-- A write against an empty buffer in a state that passes through
(here: because of a pre-set `Content-Encoding`) commits the status line
and forwards the bytes raw. -/
theorem write_spt_emptybuf (cfg : Cfg) (col : Collab) (hdr : Hdr) (sh : Option Hdr)
    (body : List Nat) (fc : Nat) (fl : Bool) (code : Nat) (b : List Nat) (pool : Pool)
    (hspt : ∀ X : Nat, shouldPassThrough cfg col
      ⟨⟨hdr, none, sh, body, fc, fl⟩, none, X, some [], pool⟩ = true) :
    write cfg col ⟨⟨hdr, none, sh, body, fc, fl⟩, none, code, some [], pool⟩ b =
      ⟨⟨hdr, some (dCode code), some hdr, body ++ b, fc, fl⟩, none, dCode code, none, pool⟩ := by
  by_cases hc0 : code = 0 <;>
    simp [write, hc0, hspt, dCode, regularFlushedWrite, Sink.writeHeader, Sink.write]

/-- C3: when the handler sets a non-empty `Content-Encoding` value
before writing, the writer passes every byte through unmodified on the
first write regardless of length, never borrows a compressor, and
preserves the handler's `Content-Encoding` value (live and in the
snapshot). -/
theorem preset_content_encoding_passthrough (cfg : Cfg) (col : Collab)
    (specs : List AcceptSpec) (chunks : List (List Nat)) (vs : List String)
    (fl : Bool) (v : List String) (pool : Pool)
    (hacc : acceptsGzip specs = true)
    (hv : getFirst (some vs) ≠ "") :
    (serveHTTP cfg col specs (Op.setCE vs :: chunks.map Op.write)
        (freshSink fl v) pool).1.body = chunks.flatten ∧
    (serveHTTP cfg col specs (Op.setCE vs :: chunks.map Op.write)
        (freshSink fl v) pool).1.hdr.ce = some vs ∧
    (∀ hh, (serveHTTP cfg col specs (Op.setCE vs :: chunks.map Op.write)
        (freshSink fl v) pool).1.sentHdr = some hh → hh.ce = some vs) ∧
    (serveHTTP cfg col specs (Op.setCE vs :: chunks.map Op.write)
        (freshSink fl v) pool).2 = pool := by
  simp only [serveHTTP, hacc, if_true, addVary, mkState, freshSink, run_cons]
  have hstep : step cfg col
      ⟨⟨⟨none, none, none, v ++ ["Accept-Encoding"]⟩, none, none, [], 0, fl⟩,
        none, 0, some [], pool⟩ (Op.setCE vs) =
      ⟨⟨⟨some vs, none, none, v ++ ["Accept-Encoding"]⟩, none, none, [], 0, fl⟩,
        none, 0, some [], pool⟩ := rfl
  rw [hstep]
  cases chunks with
  | nil =>
      rw [List.map_nil, run_nil]
      simp [closeRW, closeNonGzipped, inferContentType, sniffInput, Sink.writeHeader]
  | cons b rest =>
      rw [List.map_cons, run_cons]
      have hspt : ∀ X : Nat, shouldPassThrough cfg col
          ⟨⟨⟨some vs, none, none, v ++ ["Accept-Encoding"]⟩, none, none, [], 0, fl⟩,
            none, X, some [], pool⟩ = true :=
        fun X => shouldPassThrough_of_ce cfg col hv
      simp only [step_write]
      rw [write_spt_emptybuf cfg col ⟨some vs, none, none, v ++ ["Accept-Encoding"]⟩
          none [] 0 fl 0 b pool hspt,
        run_passthrough cfg col rest
          ⟨⟨some vs, none, none, v ++ ["Accept-Encoding"]⟩, some (dCode 0),
            some ⟨some vs, none, none, v ++ ["Accept-Encoding"]⟩, [] ++ b, 0, fl⟩
          (dCode 0) pool rfl,
        closeRW_passthrough]
      simp

/-- C3 witness: Scenario E — `Content-Encoding: br` set before a write
passes the body through unmodified with threshold 0. -/
theorem preset_content_encoding_passthrough_witness :
    (serveHTTP ⟨0, []⟩ ⟨fun _ => "text/plain", fun _ _ => true⟩ [⟨"gzip", 1⟩]
        (Op.setCE ["br"] :: [[1, 2, 3]].map Op.write) (freshSink false []) ⟨[], 0⟩).1.body
      = [1, 2, 3] ∧
    (serveHTTP ⟨0, []⟩ ⟨fun _ => "text/plain", fun _ _ => true⟩ [⟨"gzip", 1⟩]
        (Op.setCE ["br"] :: [[1, 2, 3]].map Op.write) (freshSink false []) ⟨[], 0⟩).1.hdr.ce
      = some ["br"] ∧
    (∀ hh, (serveHTTP ⟨0, []⟩ ⟨fun _ => "text/plain", fun _ _ => true⟩ [⟨"gzip", 1⟩]
        (Op.setCE ["br"] :: [[1, 2, 3]].map Op.write) (freshSink false []) ⟨[], 0⟩).1.sentHdr
      = some hh → hh.ce = some ["br"]) ∧
    (serveHTTP ⟨0, []⟩ ⟨fun _ => "text/plain", fun _ _ => true⟩ [⟨"gzip", 1⟩]
        (Op.setCE ["br"] :: [[1, 2, 3]].map Op.write) (freshSink false []) ⟨[], 0⟩).2 = ⟨[], 0⟩ :=
  preset_content_encoding_passthrough ⟨0, []⟩ ⟨fun _ => "text/plain", fun _ _ => true⟩
    [⟨"gzip", 1⟩] [[1, 2, 3]] ["br"] false [] ⟨[], 0⟩ (by decide) (by decide)

/-! ## C10: Vary gains Accept-Encoding on every response -/

/-- The `Vary` invariant of a sink: the live header carries `V` and any
committed snapshot carries `V`. -/
def SVary (V : List String) (s : Sink) : Prop :=
  s.hdr.vary = V ∧ ∀ hh, s.sentHdr = some hh → hh.vary = V

theorem svary_hdr {V : List String} {s : Sink} {h' : Hdr} (hv : h'.vary = V)
    (h : SVary V s) : SVary V { s with hdr := h' } := ⟨hv, h.2⟩

theorem svary_sink_writeHeader {V : List String} {s : Sink} (c : Nat)
    (h : SVary V s) : SVary V (s.writeHeader c) := by
  obtain ⟨hdr, scode, sh, body, fc, flr⟩ := s
  obtain ⟨h1, h2⟩ := h
  cases scode <;> simp_all [Sink.writeHeader, SVary]

theorem svary_sink_write {V : List String} {s : Sink} (b : List Nat)
    (h : SVary V s) : SVary V (s.write b) := by
  obtain ⟨hdr, scode, sh, body, fc, flr⟩ := s
  obtain ⟨h1, h2⟩ := h
  cases scode <;> simp_all [Sink.write, SVary]

theorem svary_sink_flush {V : List String} {s : Sink}
    (h : SVary V s) : SVary V s.flush := by
  obtain ⟨hdr, scode, sh, body, fc, flr⟩ := s
  obtain ⟨h1, h2⟩ := h
  cases scode <;> simp_all [Sink.flush, SVary]

theorem svary_infer {V : List String} (col : Collab) (st : St) (b : List Nat)
    (h : SVary V st.sink) : SVary V (inferContentType col st b).sink := by
  simp only [inferContentType]
  split_ifs with h1 h2
  · exact h
  · exact h
  · exact svary_hdr h.1 h

theorem svary_startGzip {V : List String} (st : St)
    (h : SVary V st.sink) : SVary V (startGzip st).sink :=
  svary_sink_writeHeader st.code (svary_hdr h.1 h)

theorem svary_rfw {V : List String} (st : St) (b : List Nat)
    (h : SVary V st.sink) : SVary V (regularFlushedWrite st b).sink := by
  simp only [regularFlushedWrite]
  split_ifs with h1
  · exact svary_sink_write b (svary_sink_write _ (svary_sink_writeHeader st.code h))
  · exact svary_sink_write b (svary_sink_writeHeader st.code h)

theorem svary_write {V : List String} (cfg : Cfg) (col : Collab) (st : St) (b : List Nat)
    (h : SVary V st.sink) : SVary V (write cfg col st b).sink := by
  cases hgw : st.gw with
  | some g => simp only [write, hgw]; exact h
  | none =>
    cases hbuf : st.buf with
    | none => simp only [write, hgw, hbuf]; exact svary_sink_write b h
    | some buf =>
      simp only [write, hgw, hbuf]
      split_ifs <;>
        first
          | exact h
          | exact svary_rfw _ b h
          | exact svary_rfw _ b (svary_infer col _ b h)
          | exact svary_startGzip _ (svary_infer col _ b h)

theorem svary_closeNonGzipped {V : List String} (col : Collab) (st : St)
    (h : SVary V st.sink) : SVary V (closeNonGzipped col st).sink := by
  simp only [closeNonGzipped]
  split_ifs with h1 h2 <;>
    first
      | exact svary_sink_write _ (svary_sink_writeHeader _ (svary_infer col st [] h))
      | exact svary_sink_writeHeader _ (svary_infer col st [] h)

theorem svary_closeRW {V : List String} (col : Collab) (st : St)
    (h : SVary V st.sink) : SVary V (closeRW col st).sink := by
  unfold closeRW
  split
  · exact h
  · exact svary_closeNonGzipped col st h
  · simp only [closeGzipped]
    split
    · exact h
    · exact svary_sink_write _ h
  · exact h

theorem svary_flushRW {V : List String} (st : St)
    (h : SVary V st.sink) : SVary V (flushRW st).sink := by
  simp only [flushRW]
  split_ifs with h1 h2
  · exact h
  · exact svary_sink_flush h
  · exact h

theorem svary_step {V : List String} (cfg : Cfg) (col : Collab) (st : St) (op : Op)
    (h : SVary V st.sink) : SVary V (step cfg col st op).sink := by
  cases op with
  | write b => exact svary_write cfg col st b h
  | writeHeader c =>
      show SVary V (writeHeaderRW st c).sink
      unfold writeHeaderRW
      split
      · exact h
      · exact h
  | flush => exact svary_flushRW st h
  | close => exact svary_closeRW col st h
  | setCE vs => exact svary_hdr h.1 h
  | setCT vs => exact svary_hdr h.1 h
  | setCL vs => exact svary_hdr h.1 h

theorem svary_run {V : List String} (cfg : Cfg) (col : Collab) :
    ∀ (ops : List Op) (st : St), SVary V st.sink → SVary V (run cfg col st ops).sink := by
  intro ops
  induction ops with
  | nil => exact fun st h => h
  | cons op rest ih => exact fun st h => ih _ (svary_step cfg col st op h)

theorem svary_stepDirect {V : List String} (s : Sink) (op : Op)
    (h : SVary V s) : SVary V (stepDirect s op) := by
  cases op with
  | write b => exact svary_sink_write b h
  | writeHeader c => exact svary_sink_writeHeader c h
  | flush =>
      show SVary V (if s.isFlusher then s.flush else s)
      split
      · exact svary_sink_flush h
      · exact h
  | close => exact h
  | setCE vs => exact svary_hdr h.1 h
  | setCT vs => exact svary_hdr h.1 h
  | setCL vs => exact svary_hdr h.1 h

theorem svary_runDirect {V : List String} :
    ∀ (ops : List Op) (s : Sink), SVary V s → SVary V (ops.foldl stepDirect s) := by
  intro ops
  induction ops with
  | nil => exact fun s h => h
  | cons op rest ih => exact fun s h => ih _ (svary_stepDirect s op h)

/-- C10: for every request handled by the wrapper — whether or not the
client accepts gzip, whatever the handler does — "Accept-Encoding" is
appended to the response's `Vary` values before the handler runs, and
the final live header (and any committed snapshot) carries exactly the
original `Vary` values followed by "Accept-Encoding". -/
theorem vary_always_appended (cfg : Cfg) (col : Collab) (specs : List AcceptSpec)
    (ops : List Op) (sink : Sink) (pool : Pool) (hsent : sink.sentHdr = none) :
    (serveHTTP cfg col specs ops sink pool).1.hdr.vary
        = sink.hdr.vary ++ ["Accept-Encoding"] ∧
    ∀ hh, (serveHTTP cfg col specs ops sink pool).1.sentHdr = some hh →
      hh.vary = sink.hdr.vary ++ ["Accept-Encoding"] := by
  have h0 : SVary (sink.hdr.vary ++ ["Accept-Encoding"]) (addVary sink) := by
    refine ⟨rfl, fun hh hhe => ?_⟩
    rw [show (addVary sink).sentHdr = sink.sentHdr from rfl, hsent] at hhe
    exact absurd hhe (by simp)
  unfold serveHTTP
  by_cases hacc : acceptsGzip specs
  · simp only [hacc, if_true]
    have hfin := svary_closeRW col _
      (svary_run cfg col ops (mkState (addVary sink) pool) h0)
    exact ⟨hfin.1, hfin.2⟩
  · simp only [hacc, Bool.false_eq_true, if_false]
    have hfin := svary_runDirect ops (addVary sink) h0
    exact ⟨hfin.1, hfin.2⟩

/-- C10 witness: a request that does not accept gzip still gains
`Vary: Accept-Encoding`. -/
theorem vary_always_appended_witness :
    (serveHTTP ⟨512, []⟩ ⟨fun _ => "text/plain", fun _ _ => true⟩ [] [Op.write [104]]
        (freshSink false []) ⟨[], 0⟩).1.hdr.vary = ["Accept-Encoding"] ∧
    ∀ hh, (serveHTTP ⟨512, []⟩ ⟨fun _ => "text/plain", fun _ _ => true⟩ [] [Op.write [104]]
        (freshSink false []) ⟨[], 0⟩).1.sentHdr = some hh → hh.vary = ["Accept-Encoding"] :=
  vary_always_appended ⟨512, []⟩ ⟨fun _ => "text/plain", fun _ _ => true⟩ [] [Op.write [104]]
    (freshSink false []) ⟨[], 0⟩ rfl

/-! ## C6: idempotent finalize and pool soundness -/

theorem poolInv_get {p : Pool} (h : PoolInv p) :
    PoolInv (p.get).2 ∧ (p.get).1 < (p.get).2.next ∧ (p.get).1 ∉ (p.get).2.free := by
  obtain ⟨free, next⟩ := p
  obtain ⟨hnd, hbd⟩ := h
  cases free with
  | nil => simp [Pool.get, PoolInv]
  | cons i rest =>
      refine ⟨⟨(List.nodup_cons.mp hnd).2, fun j hj => hbd j (List.mem_cons_of_mem _ hj)⟩,
        hbd i (List.mem_cons_self _ _), (List.nodup_cons.mp hnd).1⟩

theorem poolInv_put {p : Pool} {i : Nat} (h : PoolInv p) (hlt : i < p.next)
    (hnm : i ∉ p.free) : PoolInv (p.put i) := by
  obtain ⟨hnd, hbd⟩ := h
  refine ⟨List.nodup_cons.mpr ⟨hnm, hnd⟩, fun j hj => ?_⟩
  rcases List.mem_cons.mp hj with rfl | hj
  · exact hlt
  · exact hbd j hj

theorem pool_two_gets {p : Pool} (h : PoolInv p) : (p.get).1 ≠ ((p.get).2.get).1 := by
  obtain ⟨free, next⟩ := p
  obtain ⟨hnd, hbd⟩ := h
  cases free with
  | nil => simp [Pool.get]
  | cons i rest =>
      cases rest with
      | nil =>
          simp only [Pool.get]
          exact Nat.ne_of_lt (hbd i (List.mem_cons_self _ _))
      | cons j rest2 =>
          simp only [Pool.get]
          exact (List.nodup_cons.mp hnd).1 ∘ fun he => he ▸ List.mem_cons_self _ _

/-- Transfer of the state invariant along a step that keeps the pool
and does not produce a fresh compressor id. -/
theorem stInv_transfer {st st' : St} (h : StInv st) (hpool : st'.pool = st.pool)
    (hgw : ∀ g', st'.gw = some g' → ∃ g, st.gw = some g ∧ g'.id = g.id) : StInv st' := by
  obtain ⟨hp, hg⟩ := h
  refine ⟨hpool ▸ hp, fun g' hg' => ?_⟩
  obtain ⟨g, hgeq, hid⟩ := hgw g' hg'
  rw [hpool, hid]
  exact hg g hgeq

theorem infer_pool (col : Collab) (st : St) (b : List Nat) :
    (inferContentType col st b).pool = st.pool := by
  simp only [inferContentType]; split_ifs <;> rfl

theorem infer_gw (col : Collab) (st : St) (b : List Nat) :
    (inferContentType col st b).gw = st.gw := by
  simp only [inferContentType]; split_ifs <;> rfl

theorem rfw_pool (st : St) (b : List Nat) :
    (regularFlushedWrite st b).pool = st.pool := rfl

theorem rfw_gw (st : St) (b : List Nat) :
    (regularFlushedWrite st b).gw = st.gw := rfl

theorem stInv_infer (col : Collab) (st : St) (b : List Nat) (h : StInv st) :
    StInv (inferContentType col st b) := by
  simp only [inferContentType]
  split_ifs <;> exact h

theorem startGzip_gw_id (st : St) :
    ∃ g, (startGzip st).gw = some g ∧ g.id = (st.pool.get).1 := by
  simp only [startGzip]
  split
  · exact ⟨_, rfl, rfl⟩
  · exact ⟨_, rfl, rfl⟩

theorem stInv_startGzip (st : St) (h : StInv st) : StInv (startGzip st) := by
  have hg := poolInv_get h.1
  obtain ⟨g, hge, hgid⟩ := startGzip_gw_id st
  refine ⟨hg.1, fun g' hg' => ?_⟩
  rw [hge] at hg'
  obtain rfl : g = g' := by simpa using hg'
  rw [hgid]
  exact ⟨hg.2.1, hg.2.2⟩

theorem gw_map_id (f : GW → GW) (hf : ∀ g, (f g).id = g.id) {o : Option GW} {g' : GW}
    (h : o.map f = some g') : ∃ g, o = some g ∧ g'.id = g.id := by
  cases o with
  | none => simp at h
  | some g =>
      refine ⟨g, rfl, ?_⟩
      have : f g = g' := by simpa using h
      rw [← this]
      exact hf g

theorem stInv_startGzip_write (st : St) (b : List Nat) (h : StInv st) :
    StInv { startGzip st with gw := (startGzip st).gw.map (fun (g : GW) => g.write b) } := by
  have hs := stInv_startGzip st h
  refine stInv_transfer hs rfl (fun g' hg' => ?_)
  exact gw_map_id (fun g => g.write b) (fun g => rfl) hg'

theorem stInv_write (cfg : Cfg) (col : Collab) (st : St) (b : List Nat) (h : StInv st) :
    StInv (write cfg col st b) := by
  cases hgw : st.gw with
  | some g =>
      simp only [write, hgw]
      refine stInv_transfer h (by rfl) (fun g' hg' => ⟨g, hgw, ?_⟩)
      obtain rfl : g.write b = g' := by simpa using hg'
      rfl
  | none =>
      cases hbuf : st.buf with
      | none =>
          simp only [write, hgw, hbuf]
          refine stInv_transfer h rfl (fun g' hg' => ?_)
          simp at hg'
      | some buf =>
          simp only [write, hgw, hbuf]
          split_ifs <;>
            first
              | exact stInv_startGzip_write _ b (stInv_infer col _ b
                  (stInv_transfer h (by rfl)
                    (by intro g' hg'
                        first
                          | exact ⟨g', hg', rfl⟩
                          | exact Option.noConfusion
                              (show (none : Option GW) = some g' from hg'))))
              | (refine ⟨?_, ?_⟩
                 · try simp only [rfw_pool, infer_pool]
                   exact h.1
                 · intro g' hg'
                   try simp only [rfw_gw, infer_gw] at hg'
                   try simp only [rfw_pool, infer_pool]
                   first
                     | exact Option.noConfusion (show (none : Option GW) = some g' from hg')
                     | exact h.2 g' hg')

theorem stInv_flushRW (st : St) (h : StInv st) : StInv (flushRW st) := by
  simp only [flushRW]
  split_ifs <;>
    first
      | exact h
      | exact stInv_transfer h (by rfl)
          (by exact fun g' hg' =>
            gw_map_id (fun g => { g with flushCount := g.flushCount + 1 }) (fun g => rfl) hg')

theorem stInv_closeRW (col : Collab) (st : St) (h : StInv st) : StInv (closeRW col st) := by
  unfold closeRW
  split
  · exact h
  · simp only [closeNonGzipped]
    split_ifs <;>
      exact stInv_transfer (stInv_infer col st [] h) (by rfl)
        (by exact fun g' hg' => ⟨g', hg', rfl⟩)
  · next g heq =>
      simp only [closeGzipped]
      split
      · exact h
      · next g2 heq2 =>
          have hid := h.2 g2 heq2
          refine ⟨poolInv_put h.1 hid.1 hid.2, fun g' hg' => ?_⟩
          cases hg'
  · exact h

theorem stInv_step (cfg : Cfg) (col : Collab) (st : St) (op : Op) (h : StInv st) :
    StInv (step cfg col st op) := by
  cases op with
  | write b => exact stInv_write cfg col st b h
  | writeHeader c =>
      show StInv (writeHeaderRW st c)
      unfold writeHeaderRW
      split
      · exact stInv_transfer h (by rfl) (by exact fun g' hg' => ⟨g', hg', rfl⟩)
      · exact h
  | flush => exact stInv_flushRW st h
  | close => exact stInv_closeRW col st h
  | setCE vs => exact stInv_transfer h (by rfl) (by exact fun g' hg' => ⟨g', hg', rfl⟩)
  | setCT vs => exact stInv_transfer h (by rfl) (by exact fun g' hg' => ⟨g', hg', rfl⟩)
  | setCL vs => exact stInv_transfer h (by rfl) (by exact fun g' hg' => ⟨g', hg', rfl⟩)

theorem stInv_run (cfg : Cfg) (col : Collab) :
    ∀ (ops : List Op) (st : St), StInv st → StInv (run cfg col st ops) := by
  intro ops
  induction ops with
  | nil => exact fun st h => h
  | cons op rest ih => exact fun st h => ih _ (stInv_step cfg col st op h)

theorem closeNonGzipped_buf (col : Collab) (st : St) :
    (closeNonGzipped col st).buf = none := rfl

theorem closeNonGzipped_gw (col : Collab) (st : St) :
    (closeNonGzipped col st).gw = st.gw := by
  simp only [closeNonGzipped]
  split_ifs <;> simp [infer_gw]

theorem closeRW_of_none (col : Collab) {st : St} (hbuf : st.buf = none)
    (hgw : st.gw = none) : closeRW col st = st := by
  obtain ⟨sink, gw, code, buf, pool⟩ := st
  simp only at hbuf hgw
  subst hbuf; subst hgw
  rfl

/-- A second finalize after a finalize is always a no-op. -/
theorem closeRW_idem (col : Collab) (st : St) :
    closeRW col (closeRW col st) = closeRW col st := by
  obtain ⟨sink, gw, code, buf, pool⟩ := st
  cases gw with
  | none =>
      cases buf with
      | none => rfl
      | some bf =>
          show closeRW col (closeNonGzipped col ⟨sink, none, code, some bf, pool⟩) = _
          refine closeRW_of_none col (closeNonGzipped_buf col _) ?_
          rw [closeNonGzipped_gw col _]
  | some g =>
      cases buf with
      | none => rfl
      | some bf => rfl

/-- C6: finalize is idempotent — after any handler interaction sequence
(including an explicit early `Close`), a further `Close` on a closed
writer changes nothing observable — and the compressor pool stays
sound, so the next two compressor acquisitions by subsequent requests
obtain distinct instances. -/
theorem close_idempotent_pool_distinct (cfg : Cfg) (col : Collab) (ops : List Op)
    (sink : Sink) (pool : Pool) (hp : PoolInv pool) :
    closeRW col (closeRW col (run cfg col (mkState sink pool) ops))
        = closeRW col (run cfg col (mkState sink pool) ops) ∧
    ((closeRW col (run cfg col (mkState sink pool) ops)).pool.get).1
        ≠ ((((closeRW col (run cfg col (mkState sink pool) ops)).pool.get).2).get).1 := by
  have h0 : StInv (mkState sink pool) := ⟨hp, fun g hg => by simp [mkState] at hg⟩
  have h1 := stInv_closeRW col _ (stInv_run cfg col ops _ h0)
  exact ⟨closeRW_idem col _, pool_two_gets h1.1⟩

/-- C6 witness: the double-close test scenario — a write, an explicit
`Close`, then the deferred `Close` — on an initially empty pool. -/
theorem close_idempotent_pool_distinct_witness :
    closeRW ⟨fun _ => "text/plain", fun _ _ => true⟩
        (closeRW ⟨fun _ => "text/plain", fun _ _ => true⟩
          (run ⟨0, []⟩ ⟨fun _ => "text/plain", fun _ _ => true⟩
            (mkState (freshSink false []) ⟨[], 0⟩) [Op.write [116], Op.close]))
      = closeRW ⟨fun _ => "text/plain", fun _ _ => true⟩
          (run ⟨0, []⟩ ⟨fun _ => "text/plain", fun _ _ => true⟩
            (mkState (freshSink false []) ⟨[], 0⟩) [Op.write [116], Op.close]) ∧
    (((closeRW ⟨fun _ => "text/plain", fun _ _ => true⟩
        (run ⟨0, []⟩ ⟨fun _ => "text/plain", fun _ _ => true⟩
          (mkState (freshSink false []) ⟨[], 0⟩) [Op.write [116], Op.close])).pool.get).1
      ≠ ((((closeRW ⟨fun _ => "text/plain", fun _ _ => true⟩
        (run ⟨0, []⟩ ⟨fun _ => "text/plain", fun _ _ => true⟩
          (mkState (freshSink false []) ⟨[], 0⟩) [Op.write [116], Op.close])).pool.get).2).get).1) :=
  close_idempotent_pool_distinct ⟨0, []⟩ ⟨fun _ => "text/plain", fun _ _ => true⟩
    [Op.write [116], Op.close] (freshSink false []) ⟨[], 0⟩
    ⟨List.nodup_nil, by simp⟩

/-! ## C9: content-type sniffing happens at commit time -/

theorem take_min_self (l : List Nat) : l.take (min 512 l.length) = l.take 512 := by
  rcases Nat.le_total l.length 512 with hp | hp
  · rw [Nat.min_eq_right hp, List.take_of_length_le (Nat.le_refl _), List.take_of_length_le hp]
  · rw [Nat.min_eq_left hp]

theorem take_min_append (p X : List Nat) :
    (p ++ X).take (min 512 p.length) = p.take 512 := by
  rcases Nat.le_total p.length 512 with hp | hp
  · rw [Nat.min_eq_right hp, List.take_left]
    exact (List.take_of_length_le hp).symm
  · rw [Nat.min_eq_left hp]
    exact List.take_append_of_le_length hp

theorem sniffInput_ne_nil {buf b : List Nat} (hpos : 0 < buf.length + b.length) :
    sniffInput buf b ≠ [] := by
  unfold sniffInput
  split_ifs with h1 h2 h3
  · subst h1
    simp only [List.length_nil, Nat.zero_add] at hpos
    exact List.length_pos.mp hpos
  · exact h1
  · simp [h1]
  · simp [h1]

theorem sniff_sniffInput (col : Collab) (hsniff : ∀ l, col.sniff l = col.sniff (l.take 512))
    (buf b : List Nat) :
    col.sniff (sniffInput buf b) = col.sniff ((buf ++ b).take 512) := by
  unfold sniffInput
  split_ifs with h1 h2 h3
  · subst h1; simpa using hsniff b
  · rw [List.take_append_of_le_length h2]
    exact hsniff buf
  · congr 1
    rw [List.take_append_eq_append_take,
      List.take_of_length_le (show buf.length ≤ 512 by omega)]
  · rw [List.take_of_length_le (by simp only [List.length_append]; omega)]

theorem commitLen_of_lt (m : Nat) :
    ∀ (chunks : List (List Nat)) (acc : Nat), acc + chunks.flatten.length < m →
      commitLen m chunks acc = acc + chunks.flatten.length := by
  intro chunks
  induction chunks with
  | nil => intro acc h; simp [commitLen]
  | cons b rest ih =>
      intro acc h
      have hlt : acc + b.length < m := by
        simp only [List.flatten_cons, List.length_append] at h
        omega
      simp only [commitLen, if_pos hlt]
      rw [ih (acc + b.length)
        (by simp only [List.flatten_cons, List.length_append] at h ⊢; omega)]
      simp only [List.flatten_cons, List.length_append]
      omega

theorem commitCT_eq (col : Collab) (m : Nat)
    (hsniff : ∀ l, col.sniff l = col.sniff (l.take 512)) :
    ∀ (chunks : List (List Nat)) (buf : List Nat), chunks ≠ [] →
      m ≤ buf.length + chunks.flatten.length →
      0 < commitLen m chunks buf.length →
      commitCT col m buf chunks
        = some [col.sniff
            ((buf ++ chunks.flatten).take (min 512 (commitLen m chunks buf.length)))] := by
  intro chunks
  induction chunks with
  | nil => intro buf hne _ _; exact absurd rfl hne
  | cons b rest ih =>
      intro buf _ hmin hpos
      by_cases hlt : buf.length + b.length < m
      · have hrest : rest ≠ [] := by
          rintro rfl
          simp only [List.flatten_cons, List.flatten_nil, List.append_nil,
            List.length_append] at hmin
          omega
        have hstep : commitLen m (b :: rest) buf.length = commitLen m rest (buf ++ b).length := by
          simp [commitLen, hlt, List.length_append]
        rw [show commitCT col m buf (b :: rest) = commitCT col m (buf ++ b) rest from by
            simp [commitCT, hlt],
          hstep,
          ih (buf ++ b) hrest
            (by simp only [List.flatten_cons, List.length_append] at hmin ⊢; omega)
            (by rw [← hstep]; exact hpos)]
        simp [List.flatten_cons, List.append_assoc]
      · have hclen : commitLen m (b :: rest) buf.length = buf.length + b.length := by
          simp [commitLen, hlt]
        have hsi : sniffInput buf b ≠ [] := by
          apply sniffInput_ne_nil
          rw [hclen] at hpos
          exact hpos
        rw [show commitCT col m buf (b :: rest) = ctSniff col buf b from by simp [commitCT, hlt],
          hclen]
        unfold ctSniff
        rw [if_neg hsi, sniff_sniffInput col hsniff buf b]
        have hsplit : (buf ++ (b :: rest).flatten).take (min 512 (buf.length + b.length))
            = (buf ++ b).take 512 := by
          have : buf ++ (b :: rest).flatten = (buf ++ b) ++ rest.flatten := by
            simp [List.flatten_cons, List.append_assoc]
          rw [this, show buf.length + b.length = (buf ++ b).length from
            (List.length_append _ _).symm, take_min_append]
        rw [hsplit]

/-- Projections of the commit write: whatever the pass-through decision
after inference, the inferred content type is set, snapshotted, the
buffer released and the status line committed. -/
theorem write_commit_ct (cfg : Cfg) (col : Collab) (cl : Option (List String))
    (vary : List String) (sh : Option Hdr) (body : List Nat) (fc : Nat) (fl : Bool)
    (code : Nat) (buf b : List Nat) (pool : Pool)
    (hmin : ¬ buf.length + b.length < cfg.minSize) :
    (write cfg col ⟨⟨⟨none, cl, none, vary⟩, none, sh, body, fc, fl⟩,
        none, code, some buf, pool⟩ b).sink.hdr.ct = ctSniff col buf b ∧
    (∃ hh, (write cfg col ⟨⟨⟨none, cl, none, vary⟩, none, sh, body, fc, fl⟩,
        none, code, some buf, pool⟩ b).sink.sentHdr = some hh ∧ hh.ct = ctSniff col buf b) ∧
    (write cfg col ⟨⟨⟨none, cl, none, vary⟩, none, sh, body, fc, fl⟩,
        none, code, some buf, pool⟩ b).buf = none ∧
    (write cfg col ⟨⟨⟨none, cl, none, vary⟩, none, sh, body, fc, fl⟩,
        none, code, some buf, pool⟩ b).sink.code.isSome = true := by
  rw [write_commit_split cfg col cl vary sh body fc fl code buf b pool hmin]
  split_ifs with h2
  · by_cases hbuf0 : buf = [] <;>
      simp [regularFlushedWrite, Sink.writeHeader, Sink.write, hbuf0]
  · exact ⟨rfl, ⟨_, rfl, rfl⟩, rfl, rfl⟩

/-- After the writer has committed (buffer released, status line sent),
further writes change neither the header map nor the snapshot. -/
theorem run_postcommit (cfg : Cfg) (col : Collab) :
    ∀ (chunks : List (List Nat)) (st : St), st.buf = none → st.sink.code.isSome = true →
      (run cfg col st (chunks.map Op.write)).sink.hdr = st.sink.hdr ∧
      (run cfg col st (chunks.map Op.write)).sink.sentHdr = st.sink.sentHdr ∧
      (run cfg col st (chunks.map Op.write)).buf = none ∧
      (run cfg col st (chunks.map Op.write)).sink.code.isSome = true := by
  intro chunks
  induction chunks with
  | nil => intro st h1 h2; exact ⟨rfl, rfl, h1, h2⟩
  | cons b rest ih =>
      intro st h1 h2
      rw [List.map_cons, run_cons, step_write]
      cases hgw : st.gw with
      | some g =>
          simp only [write, hgw]
          exact ih { st with gw := some (g.write b) } h1 h2
      | none =>
          simp only [write, hgw, h1]
          have ha : (st.sink.write b).hdr = st.sink.hdr := by
            simp [Sink.write, h2]
          have hb' : (st.sink.write b).sentHdr = st.sink.sentHdr := by
            simp [Sink.write, h2]
          have hc : (st.sink.write b).code.isSome = true := by
            simp [Sink.write, h2]
          obtain ⟨i1, i2, i3, i4⟩ :=
            ih ⟨st.sink.write b, none, st.code, none, st.pool⟩ rfl hc
          exact ⟨i1.trans ha, i2.trans hb', i3, i4⟩

/-- Finalize on a committed writer changes neither the header map nor
the snapshot. -/
theorem closeRW_committed (col : Collab) (st : St) (hbuf : st.buf = none)
    (hc : st.sink.code.isSome = true) :
    (closeRW col st).sink.hdr = st.sink.hdr ∧
    (closeRW col st).sink.sentHdr = st.sink.sentHdr := by
  obtain ⟨sink, gw, code, buf, pool⟩ := st
  simp only at hbuf hc
  subst hbuf
  cases gw with
  | none => exact ⟨rfl, rfl⟩
  | some g =>
      show (closeGzipped _).sink.hdr = _ ∧ (closeGzipped _).sink.sentHdr = _
      simp [closeGzipped, Sink.write, hc]

/-- A nonempty run of writes reaching the threshold from a clean
buffering state sets the content type inferred at the commit point. -/
theorem run_ct (cfg : Cfg) (col : Collab) :
    ∀ (chunks : List (List Nat)) (cl : Option (List String)) (vary : List String)
      (sh : Option Hdr) (body : List Nat) (fc : Nat) (fl : Bool)
      (code : Nat) (buf : List Nat) (pool : Pool),
      chunks ≠ [] → cfg.minSize ≤ buf.length + chunks.flatten.length →
      (run cfg col ⟨⟨⟨none, cl, none, vary⟩, none, sh, body, fc, fl⟩, none, code, some buf, pool⟩
          (chunks.map Op.write)).sink.hdr.ct = commitCT col cfg.minSize buf chunks ∧
      (∃ hh, (run cfg col ⟨⟨⟨none, cl, none, vary⟩, none, sh, body, fc, fl⟩,
          none, code, some buf, pool⟩ (chunks.map Op.write)).sink.sentHdr = some hh ∧
        hh.ct = commitCT col cfg.minSize buf chunks) ∧
      (run cfg col ⟨⟨⟨none, cl, none, vary⟩, none, sh, body, fc, fl⟩, none, code, some buf, pool⟩
          (chunks.map Op.write)).buf = none ∧
      (run cfg col ⟨⟨⟨none, cl, none, vary⟩, none, sh, body, fc, fl⟩, none, code, some buf, pool⟩
          (chunks.map Op.write)).sink.code.isSome = true := by
  intro chunks
  induction chunks with
  | nil => intro _ _ _ _ _ _ _ _ _ hne _; exact absurd rfl hne
  | cons b rest ih =>
      intro cl vary sh body fc fl code buf pool _ hmin
      rw [List.map_cons, run_cons, step_write]
      by_cases hlt : buf.length + b.length < cfg.minSize
      · have hrest : rest ≠ [] := by
          rintro rfl
          simp only [List.flatten_cons, List.flatten_nil, List.append_nil,
            List.length_append] at hmin
          omega
        rw [write_buffer cfg col _ code buf b pool rfl rfl hlt,
          show commitCT col cfg.minSize buf (b :: rest) = commitCT col cfg.minSize (buf ++ b) rest
            from by simp [commitCT, hlt]]
        exact ih cl vary sh body fc fl (dCode code) (buf ++ b) pool hrest
          (by simp only [List.flatten_cons, List.length_append] at hmin ⊢; omega)
      · obtain ⟨w1, ⟨hh, w2, w3⟩, w4, w5⟩ :=
          write_commit_ct cfg col cl vary sh body fc fl code buf b pool hlt
        obtain ⟨p1, p2, p3, p4⟩ := run_postcommit cfg col rest
          (write cfg col ⟨⟨⟨none, cl, none, vary⟩, none, sh, body, fc, fl⟩,
            none, code, some buf, pool⟩ b) w4 w5
        rw [show commitCT col cfg.minSize buf (b :: rest) = ctSniff col buf b from by
          simp [commitCT, hlt]]
        refine ⟨?_, ⟨hh, ?_, w3⟩, p3, p4⟩
        · rw [p1]; exact w1
        · rw [p2]; exact w2

/-- C9 counterexample: threshold 4, three writes "ab", "cd", "ef", and a
sniffer returning the decimal length of its input.  Commitment happens
at the second write, so the sniffer sees only 4 bytes ("abcd") and the
header becomes "4" — not the sniffer applied to the first
min(512, 6) = 6 bytes of the full body, which would be "6". -/
theorem content_type_sniff_cex :
    (serveHTTP ⟨4, []⟩ ⟨fun l => toString l.length, fun _ _ => true⟩ [⟨"gzip", 1⟩]
        ([[97, 98], [99, 100], [101, 102]].map Op.write) (freshSink false []) ⟨[], 0⟩).1.hdr.ct
      = some ["4"] ∧
    (serveHTTP ⟨4, []⟩ ⟨fun l => toString l.length, fun _ _ => true⟩ [⟨"gzip", 1⟩]
        ([[97, 98], [99, 100], [101, 102]].map Op.write) (freshSink false []) ⟨[], 0⟩).1.hdr.ct
      ≠ some [(fun (l : List Nat) => toString l.length)
          (([[97, 98], [99, 100], [101, 102]] : List (List Nat)).flatten.take
            (min 512 ([[97, 98], [99, 100], [101, 102]] : List (List Nat)).flatten.length))] := by
  constructor
  · decide
  · decide

/-- C9 (amended): when the handler never sets `Content-Type` and writes
at least one byte before commitment, the `Content-Type` header sent
equals the sniffer applied to the first min(512, c) bytes of the body,
where c is the cumulative length at the moment of commitment (the whole
body when commitment happens at finalize) — provided the sniffer
depends only on the first 512 bytes of its input, as
`http.DetectContentType` does. -/
theorem content_type_sniff_commit (cfg : Cfg) (col : Collab) (specs : List AcceptSpec)
    (chunks : List (List Nat)) (fl : Bool) (v : List String) (pool : Pool)
    (hacc : acceptsGzip specs = true)
    (hsniff : ∀ l, col.sniff l = col.sniff (l.take 512))
    (hpos : 0 < commitLen cfg.minSize chunks 0) :
    (serveHTTP cfg col specs (chunks.map Op.write) (freshSink fl v) pool).1.hdr.ct
        = some [col.sniff
            ((chunks.flatten).take (min 512 (commitLen cfg.minSize chunks 0)))] ∧
    ∃ hh, (serveHTTP cfg col specs (chunks.map Op.write) (freshSink fl v) pool).1.sentHdr
        = some hh ∧
      hh.ct = some [col.sniff
        ((chunks.flatten).take (min 512 (commitLen cfg.minSize chunks 0)))] := by
  simp only [serveHTTP, hacc, if_true, addVary, mkState, freshSink]
  by_cases hlt : chunks.flatten.length < cfg.minSize
  · rw [run_buffering cfg col chunks
        ⟨⟨none, none, none, v ++ ["Accept-Encoding"]⟩, none, none, [], 0, fl⟩ 0 [] pool
        rfl rfl (by simpa using hlt),
      closeRW_buffering]
    have hcl : commitLen cfg.minSize chunks 0 = chunks.flatten.length := by
      simpa using commitLen_of_lt cfg.minSize chunks 0 (by simpa using hlt)
    have hne : chunks.flatten ≠ [] := by
      rw [hcl] at hpos
      exact List.length_pos.mp hpos
    have hval : ctSniff col ([] ++ chunks.flatten) [] = some [col.sniff
        ((chunks.flatten).take (min 512 (commitLen cfg.minSize chunks 0)))] := by
      rw [hcl]
      simp only [List.nil_append, ctSniff, sniffInput_nil_right]
      rw [if_neg hne, take_min_self, ← hsniff]
    rw [hval]
    exact ⟨rfl, _, rfl, rfl⟩
  · have hne : chunks ≠ [] := by
      rintro rfl
      simp [commitLen] at hpos
    have hminle : cfg.minSize ≤ ([] : List Nat).length + chunks.flatten.length := by
      simpa using Nat.le_of_not_lt hlt
    obtain ⟨r1, ⟨hh, r2, r3⟩, r4, r5⟩ := run_ct cfg col chunks none (v ++ ["Accept-Encoding"])
      none [] 0 fl 0 [] pool hne hminle
    have hcc := commitCT_eq col cfg.minSize hsniff chunks [] hne hminle (by simpa using hpos)
    obtain ⟨c1, c2⟩ := closeRW_committed col _ r4 r5
    refine ⟨?_, hh, ?_, ?_⟩
    · rw [c1, r1, hcc]; simp
    · rw [c2]; exact r2
    · rw [r3, hcc]; simp

/-- C9 (amended) witness: one 3-byte write against threshold 1 with a
512-bounded sniffer commits with the sniffed type. -/
theorem content_type_sniff_commit_witness :
    (serveHTTP ⟨1, []⟩ ⟨fun _ => "text/plain", fun _ _ => true⟩ [⟨"gzip", 1⟩]
        ([[60, 33, 100]].map Op.write) (freshSink false []) ⟨[], 0⟩).1.hdr.ct
      = some ["text/plain"] ∧
    ∃ hh, (serveHTTP ⟨1, []⟩ ⟨fun _ => "text/plain", fun _ _ => true⟩ [⟨"gzip", 1⟩]
        ([[60, 33, 100]].map Op.write) (freshSink false []) ⟨[], 0⟩).1.sentHdr = some hh ∧
      hh.ct = some ["text/plain"] :=
  content_type_sniff_commit ⟨1, []⟩ ⟨fun _ => "text/plain", fun _ _ => true⟩ [⟨"gzip", 1⟩]
    [[60, 33, 100]] false [] ⟨[], 0⟩ (by decide) (fun _ => rfl) (by decide)

end GzipHandler
